import Mathlib

/-!
Shallow embedding of the encounter-simulation core of `ff-3d-sim`:
the `Timeline` scheduler (`src/Timeline.ts`), the AoE lifecycle manager
(`src/AoEManager.ts`) and the chakram projectile manager.

Modelling conventions:
* JavaScript `number` is modelled by `ℚ` (the scenarios under test use exact
  rational arithmetic; float rounding is out of scope).
* `THREE.Vector3` is modelled by `Vec3`; all collision math reads only `x`/`z`,
  as in the source.
* Rendering state (meshes, materials, colors, opacity, the cosmetic chakram
  spin) is out of the verified core and is dropped; `createMesh` is kept as the
  shape-tag validation step because its `default: throw` branch is the one hard
  failure of `AoEManager.spawn`.
* The transcendental functions of the host `Math` object (`cos`, `sin`,
  `atan2`, `PI`) are abstracted as a `MathLib` record parameter: they are only
  reached by the rotated-shape branches (`line`, `cone`, `tshape`, `plus`).
* Callbacks (`handler`, `onResolve`) are opaque; firing an event is modelled by
  the event appearing in the trace returned by `update`, and the deferred
  `setTimeout(remove, 200)` flash-then-remove step is represented by the
  instance staying in the live set with `resolved := true`.
* A JavaScript `Map` (insertion ordered, unique keys) is modelled by a list in
  insertion order; both managers only ever key entries by `config.id`.
-/

/-- Model of `THREE.Vector3`; `y` is ignored by all collision math. -/
structure Vec3 where
  x : ℚ
  y : ℚ
  z : ℚ
deriving DecidableEq, Repr

/-- Abstraction of the host `Math` object: the transcendental pieces used by
the rotated-shape collision branches. -/
structure MathLib where
  cos : ℚ → ℚ
  sin : ℚ → ℚ
  atan2 : ℚ → ℚ → ℚ
  pi : ℚ

/-- Entity position snapshot handed to the managers each tick. -/
structure EntityPosition where
  id : String
  position : Vec3
deriving DecidableEq, Repr

/-- Hit-attribution map `entityId -> [aoeId, ...]`, in insertion order
(models the JavaScript `Map<string, string[]>` built by `update`). -/
abbrev HitMap : Type := List (String × List String)

/-- Record a hit of `aoeId` against `entityId`, as in the body of the
collision loops: create the entry on first hit, else push onto it. -/
def addHit (m : HitMap) (entityId aoeId : String) : HitMap :=
  if m.any (fun p => p.1 = entityId) then
    m.map (fun p => if p.1 = entityId then (p.1, p.2 ++ [aoeId]) else p)
  else
    m ++ [(entityId, [aoeId])]

/-- Look up the list of ids recorded against `entityId` (empty when absent). -/
def lookupHits (m : HitMap) (entityId : String) : List String :=
  match m.find? (fun p => p.1 = entityId) with
  | some p => p.2
  | none => []

/-! ## Timeline (`src/Timeline.ts`) -/

/-- A scheduled event; the handler callback is opaque, so firing is modelled by
the event value appearing in the fired trace returned by `update`. -/
structure TimelineEvent where
  time : ℚ
  id : String
deriving DecidableEq, Repr

/-- The time ordering used by the sort in `start()` (the comparator
`(a, b) => a.time - b.time`). -/
def timeLE (a b : TimelineEvent) : Prop :=
  a.time ≤ b.time

instance : DecidableRel timeLE := fun a b =>
  inferInstanceAs (Decidable (a.time ≤ b.time))

instance : IsTotal TimelineEvent timeLE :=
  ⟨fun a b => le_total a.time b.time⟩

instance : IsTrans TimelineEvent timeLE :=
  ⟨fun _ _ _ h1 h2 => le_trans h1 h2⟩

/-- State of the `Timeline` class: pending events, running clock, running flag
and the per-run set of already-executed event ids. -/
structure Timeline where
  events : List TimelineEvent
  currentTime : ℚ
  isRunning : Bool
  executedEvents : List String
deriving DecidableEq, Repr

/-- Model of `addEvent`: push onto the event list. -/
def Timeline.addEvent (tl : Timeline) (e : TimelineEvent) : Timeline :=
  { tl with events := tl.events ++ [e] }

/-- Model of `start()`: clock to 0, running, executed set cleared, events
sorted ascending by time (the comparator `a.time - b.time`). -/
def Timeline.start (tl : Timeline) : Timeline :=
  { tl with
    currentTime := 0
    isRunning := true
    executedEvents := []
    events := List.insertionSort timeLE tl.events }

/-- Model of `stop()`. -/
def Timeline.stop (tl : Timeline) : Timeline :=
  { tl with isRunning := false }

/-- Model of `reset()`. -/
def Timeline.reset (tl : Timeline) : Timeline :=
  { tl with currentTime := 0, isRunning := false, executedEvents := [] }

/-- Model of `clearEvents()`. -/
def Timeline.clearEvents (tl : Timeline) : Timeline :=
  { tl with events := [], executedEvents := [] }

/-- The event loop of `update`: walk the event list in order; fire every event
whose time has been reached and whose id is not yet in the executed set,
adding its id to the set. Returns the final executed set and the fired
events in firing order. -/
def tlExecute (t : ℚ) : List TimelineEvent → List String → List String × List TimelineEvent
  | [], ex => (ex, [])
  | e :: rest, ex =>
    if e.time ≤ t ∧ e.id ∉ ex then
      let r := tlExecute t rest (e.id :: ex)
      (r.1, e :: r.2)
    else
      tlExecute t rest ex

/-- Model of `update(deltaTime)`: no-op when stopped; otherwise advance the
clock and fire all due, not-yet-executed events in list order. The fired
events are returned as the trace (the source invokes their handlers). -/
def Timeline.update (tl : Timeline) (dt : ℚ) : Timeline × List TimelineEvent :=
  if tl.isRunning = false then (tl, [])
  else
    let t := tl.currentTime + dt
    let r := tlExecute t tl.events tl.executedEvents
    ({ tl with currentTime := t, executedEvents := r.1 }, r.2)

/-- Run a whole sequence of `update` calls, concatenating the fired traces. -/
def Timeline.runUpdates : Timeline → List ℚ → Timeline × List TimelineEvent
  | tl, [] => (tl, [])
  | tl, dt :: rest =>
    let r1 := tl.update dt
    let r2 := r1.1.runUpdates rest
    (r2.1, r1.2 ++ r2.2)

/-- Modelled from the spec: `Timeline.isComplete` is invoked by the
orchestrator (`Game.ts`) but its definition is absent from the `Timeline.ts`
source in this snapshot; per the spec it "is true once the clock has passed
the latest scheduled event's time". -/
def Timeline.isComplete (tl : Timeline) : Bool :=
  tl.events.all (fun e => e.time ≤ tl.currentTime)

/-! ## AoE manager (`src/AoEManager.ts`) -/

/-- Model of the `AoEConfig` interface. The shape tag is a string at the
JavaScript level (the `switch` in `createMesh` carries a `default: throw`
branch for tags outside the six supported ones). Optional fields are
`Option`; the `onResolve` callback is opaque and dropped. -/
structure AoEConfig where
  id : String
  shape : String
  position : Vec3
  radius : Option ℚ := none
  length : Option ℚ := none
  width : Option ℚ := none
  rotation : Option ℚ := none
  angle : Option ℚ := none
  stemLength : Option ℚ := none
  stemWidth : Option ℚ := none
  barLength : Option ℚ := none
  barWidth : Option ℚ := none
  armLength : Option ℚ := none
  armWidth : Option ℚ := none
  telegraphDuration : ℚ
  soakRadius : Option ℚ := none
  soakCount : Option ℚ := none
  shrinkRate : Option ℚ := none
deriving DecidableEq, Repr

/-- Model of the internal `ActiveAoE` record (mesh dropped). -/
structure ActiveAoE where
  config : AoEConfig
  elapsedTime : ℚ
  resolved : Bool
  currentSoaks : Option ℚ := none
  currentRadius : Option ℚ := none
  isBeingSoaked : Option Bool := none
deriving DecidableEq, Repr

/-- The manager's `activeAoEs` map, in insertion order, keyed by `config.id`. -/
abbrev AoEState : Type := List ActiveAoE

/-- Closed form of the pair of while loops in the cone branch of
`checkCollision` that normalise the angular difference by steps of `2 * pi`
(first `while (d > PI) d -= 2*PI`, then `while (d < -PI) d += 2*PI`); for the
positive constant `Math.PI` the loops terminate and compute exactly these
ceiling expressions. -/
def normalizeToPi (pi a : ℚ) : ℚ :=
  let a1 := if pi < a then a - 2 * pi * (⌈(a - pi) / (2 * pi)⌉ : ℤ) else a
  if a1 < -pi then a1 + 2 * pi * (⌈(-pi - a1) / (2 * pi)⌉ : ℤ) else a1

namespace AoEManager

/-- Model of `activeAoEs.get(id)`. -/
def getAoE (s : AoEState) (id : String) : Option ActiveAoE :=
  s.find? (fun a => a.config.id = id)

/-- Model of `activeAoEs.has(id)`. -/
def hasAoE (s : AoEState) (id : String) : Bool :=
  s.any (fun a => a.config.id = id)

/-- Shape-tag validation step of `createMesh`: all rendering work is out of
scope, but the `default` branch of the `switch` throws
`Unknown AoE shape: ...` for any tag outside the six supported ones, and this
happens before the instance is inserted into the live map. -/
def createMesh (config : AoEConfig) : Except String Unit :=
  match config.shape with
  | "circle" => .ok ()
  | "line" => .ok ()
  | "cone" => .ok ()
  | "tshape" => .ok ()
  | "puddle" => .ok ()
  | "plus" => .ok ()
  | other => .error ("Unknown AoE shape: " ++ other)

/-- Model of `spawn(config)`: a duplicate id is logged and ignored (state
unchanged, no throw); otherwise `createMesh` runs first (and its throw
propagates, leaving the map untouched), then the instance is inserted with
`elapsedTime = 0`, `resolved = false`, and, for puddles, the soak state
initialised (`currentRadius = soakRadius ?? radius ?? 2`). -/
def spawn (s : AoEState) (config : AoEConfig) : Except String AoEState :=
  if hasAoE s config.id then .ok s
  else
    match createMesh config with
    | .error msg => .error msg
    | .ok _ =>
      let base : ActiveAoE := { config := config, elapsedTime := 0, resolved := false }
      let aoe : ActiveAoE :=
        if config.shape = "puddle" then
          { base with
            currentSoaks := some 0
            currentRadius := some ((config.soakRadius.getD (config.radius.getD 2)))
            isBeingSoaked := some false }
        else base
      .ok (s ++ [aoe])

/-- Model of `checkCollision(config, playerPosition)`: the pure containment
predicate, one branch per shape tag, `false` in the `default` branch. A
required parameter that is `undefined` in the source makes every comparison
against the resulting `NaN` false, so those branches return `none`-propagated
`false` here. -/
def checkCollision (m : MathLib) (config : AoEConfig) (playerPosition : Vec3) : Bool :=
  let dx := playerPosition.x - config.position.x
  let dz := playerPosition.z - config.position.z
  match config.shape with
  | "circle" =>
    match config.radius with
    | some radius =>
      let distanceSquared := dx * dx + dz * dz
      distanceSquared ≤ radius * radius
    | none => false
  | "line" =>
    match config.width, config.length with
    | some width, some length =>
      let rotation := config.rotation.getD 0
      let c := m.cos (-rotation)
      let sn := m.sin (-rotation)
      let localX := dx * c - dz * sn
      let localZ := dx * sn + dz * c
      |localX| ≤ width / 2 ∧ |localZ| ≤ length / 2
    | _, _ => false
  | "cone" =>
    match config.radius, config.angle with
    | some radius, some angle =>
      let distanceSquared := dx * dx + dz * dz
      if radius * radius < distanceSquared then false
      else
        let playerAngle := m.atan2 dx dz
        let coneRotation := config.rotation.getD 0
        let angleDiff := normalizeToPi m.pi (playerAngle - coneRotation)
        |angleDiff| ≤ angle / 2
    | _, _ => false
  | "tshape" =>
    match config.stemLength, config.stemWidth, config.barLength, config.barWidth with
    | some stemLength, some stemWidth, some barLength, some barWidth =>
      let rotation := config.rotation.getD 0
      let c := m.cos (-rotation)
      let sn := m.sin (-rotation)
      let localX := dx * c - dz * sn
      let localZ := dx * sn + dz * c
      let inStem := |localX| ≤ stemWidth / 2 ∧ 0 ≤ localZ ∧ localZ ≤ stemLength
      let inBar := |localX| ≤ barLength / 2 ∧ stemLength - barWidth / 2 ≤ localZ ∧
        localZ ≤ stemLength + barWidth / 2
      inStem ∨ inBar
    | _, _, _, _ => false
  | "puddle" =>
    let distanceSquared := dx * dx + dz * dz
    let puddleRadius := config.soakRadius.getD (config.radius.getD 2)
    distanceSquared ≤ puddleRadius * puddleRadius
  | "plus" =>
    let rotation := config.rotation.getD 0
    let c := m.cos (-rotation)
    let sn := m.sin (-rotation)
    let localX := dx * c - dz * sn
    let localZ := dx * sn + dz * c
    let armLength := config.armLength.getD 10
    let armWidth := config.armWidth.getD 2
    let halfWidth := armWidth / 2
    let inVerticalArm := |localX| ≤ halfWidth ∧ |localZ| ≤ armLength
    let inHorizontalArm := |localZ| ≤ halfWidth ∧ |localX| ≤ armLength
    inVerticalArm ∨ inHorizontalArm
  | _ => false

/-- Model of the core state change of `updatePuddle`: puddles never resolve
from elapsed time alone except the timeout safety net — when already resolved
nothing happens, otherwise once `elapsedTime >= telegraphDuration` the puddle
is marked resolved. The player-position argument only drives visual opacity
feedback in the source and is unused here; the deferred
`setTimeout(remove, 200)` is represented by the instance staying live with
`resolved := true`. -/
def updatePuddle (aoe : ActiveAoE) (playerPosition : Vec3) : ActiveAoE :=
  let _ := playerPosition
  if aoe.resolved then aoe
  else if aoe.config.telegraphDuration ≤ aoe.elapsedTime then
    { aoe with resolved := true }
  else aoe

/-- One iteration of the `update` loop over `activeAoEs`: advance elapsed
time; puddles are handled by `updatePuddle` (no hit contribution); a
non-puddle instance that reaches its telegraph duration unresolved is marked
resolved and tested against every entity, accumulating the hit map. The
flash, the `onResolve` callback and the deferred removal carry no core state
beyond `resolved := true`. -/
def stepAoE (m : MathLib) (dt : ℚ) (entities : List EntityPosition)
    (acc : AoEState × HitMap) (aoe : ActiveAoE) : AoEState × HitMap :=
  let aoe := { aoe with elapsedTime := aoe.elapsedTime + dt }
  if aoe.config.shape = "puddle" then
    let firstPos := match entities with
      | [] => (⟨0, 0, 0⟩ : Vec3)
      | e :: _ => e.position
    (acc.1 ++ [updatePuddle aoe firstPos], acc.2)
  else if aoe.resolved = false ∧ aoe.config.telegraphDuration ≤ aoe.elapsedTime then
    let aoe := { aoe with resolved := true }
    let hits := entities.foldl
      (fun hm ent =>
        if checkCollision m aoe.config ent.position then addHit hm ent.id aoe.config.id
        else hm)
      acc.2
    (acc.1 ++ [aoe], hits)
  else
    (acc.1 ++ [aoe], acc.2)

/-- Model of `update(deltaTime, entities)`: fold the per-instance step over
the live map in insertion order, returning the new state and the
`entityId -> [aoeId, ...]` hit map. -/
def update (m : MathLib) (s : AoEState) (dt : ℚ) (entities : List EntityPosition) :
    AoEState × HitMap :=
  s.foldl (stepAoE m dt entities) ([], [])

/-- Model of `remove(id)`: delete the entry from the live map (rendering
resource disposal is out of scope). -/
def remove (s : AoEState) (id : String) : AoEState :=
  s.filter (fun a => a.config.id ≠ id)

/-- Model of `checkPuddleSoak(id, positions)`: a pure query — false for a
missing id or a non-puddle instance, else true iff some supplied position is
within the current radius (`currentRadius ?? soakRadius ?? radius ?? 2`). -/
def checkPuddleSoak (s : AoEState) (id : String) (positions : List Vec3) : Bool :=
  match getAoE s id with
  | none => false
  | some aoe =>
    if aoe.config.shape ≠ "puddle" then false
    else
      let currentRadius :=
        aoe.currentRadius.getD (aoe.config.soakRadius.getD (aoe.config.radius.getD 2))
      let centerX := aoe.config.position.x
      let centerZ := aoe.config.position.z
      positions.any (fun pos =>
        let dx := pos.x - centerX
        let dz := pos.z - centerZ
        dx * dx + dz * dz ≤ currentRadius * currentRadius)

/-- Model of `respawnPuddle(id, newRadius, telegraphDuration)`: no-op for a
missing id or a non-puddle instance; otherwise remove the old instance and
spawn a fresh puddle at the same center with the new radius. The inner
`spawn` cannot throw (`"puddle"` is a supported tag) and cannot hit a
duplicate id (the old instance was just removed), so the error arm is dead
code kept only to make the call total. -/
def respawnPuddle (s : AoEState) (id : String) (newRadius telegraphDuration : ℚ) :
    AoEState :=
  match getAoE s id with
  | none => s
  | some aoe =>
    if aoe.config.shape ≠ "puddle" then s
    else
      let position := aoe.config.position
      let removed := remove s id
      match spawn removed
        { id := id
          shape := "puddle"
          position := position
          soakRadius := some newRadius
          soakCount := some 1
          telegraphDuration := telegraphDuration } with
      | .ok s2 => s2
      | .error _ => removed

/-- Model of `getActiveCount()`. -/
def getActiveCount (s : AoEState) : Nat :=
  s.length

end AoEManager

/-! ## Chakram manager (unnamed source file, `ChakramManager`) -/

/-- Model of the `ChakramConfig` interface (`onResolve` dropped). -/
structure ChakramConfig where
  id : String
  startPosition : Vec3
  endPosition : Vec3
  travelTime : ℚ
  radius : ℚ
  hitRadius : ℚ
deriving DecidableEq, Repr

/-- Model of the internal `ActiveChakram` record; `meshPos` is the mesh
position (set to the start position at height 1 on spawn, moved by `update`);
the cosmetic spin rotation is dropped. -/
structure ActiveChakram where
  config : ChakramConfig
  meshPos : Vec3
  elapsedTime : ℚ
  resolved : Bool
  stationary : Bool
deriving DecidableEq, Repr

/-- The manager's `activeChakrams` map, in insertion order, keyed by
`config.id`. -/
abbrev ChakramState : Type := List ActiveChakram

namespace ChakramManager

/-- Model of `activeChakrams.has(id)`. -/
def hasChakram (s : ChakramState) (id : String) : Bool :=
  s.any (fun c => c.config.id = id)

/-- Model of `spawn(config)`: duplicate ids are logged and ignored; otherwise
insert a moving instance at the start position. -/
def spawn (s : ChakramState) (config : ChakramConfig) : ChakramState :=
  if hasChakram s config.id then s
  else
    s ++ [{ config := config
            meshPos := ⟨config.startPosition.x, 1, config.startPosition.z⟩
            elapsedTime := 0
            resolved := false
            stationary := false }]

/-- Model of `spawnStationary(config)`: as `spawn` but with
`stationary := true`. -/
def spawnStationary (s : ChakramState) (config : ChakramConfig) : ChakramState :=
  if hasChakram s config.id then s
  else
    s ++ [{ config := config
            meshPos := ⟨config.startPosition.x, 1, config.startPosition.z⟩
            elapsedTime := 0
            resolved := false
            stationary := true }]

/-- Model of `startMovement(id)`: a missing id is logged and ignored;
otherwise clear the stationary flag and reset elapsed time to 0 so travel
begins fresh from the recorded start position. -/
def startMovement (s : ChakramState) (id : String) : ChakramState :=
  s.map (fun c =>
    if c.config.id = id then { c with stationary := false, elapsedTime := 0 } else c)

/-- One iteration of the `update` loop over `activeChakrams`: a stationary
chakram only spins (cosmetic, dropped) and is skipped entirely; otherwise
elapsed time advances, progress is clamped at 1, the mesh position is lerped
from start to end, every entity is distance-tested against `hitRadius` while
unresolved, and on `progress >= 1` the chakram resolves once and removes
itself (it is not placed back into the state). -/
def stepChakram (dt : ℚ) (entities : List EntityPosition)
    (acc : ChakramState × HitMap) (c : ActiveChakram) : ChakramState × HitMap :=
  if c.stationary then (acc.1 ++ [c], acc.2)
  else
    let c := { c with elapsedTime := c.elapsedTime + dt }
    let progress := min (c.elapsedTime / c.config.travelTime) 1
    let currentX := c.config.startPosition.x +
      (c.config.endPosition.x - c.config.startPosition.x) * progress
    let currentZ := c.config.startPosition.z +
      (c.config.endPosition.z - c.config.startPosition.z) * progress
    let c := { c with meshPos := ⟨currentX, 1, currentZ⟩ }
    let hits :=
      if c.resolved then acc.2
      else entities.foldl
        (fun hm ent =>
          let dx := ent.position.x - currentX
          let dz := ent.position.z - currentZ
          if dx * dx + dz * dz ≤ c.config.hitRadius * c.config.hitRadius then
            addHit hm ent.id c.config.id
          else hm)
        acc.2
    if 1 ≤ progress ∧ c.resolved = false then (acc.1, hits)
    else (acc.1 ++ [c], hits)

/-- Model of `update(deltaTime, entities)`: fold the per-instance step over
the live map in insertion order. -/
def update (s : ChakramState) (dt : ℚ) (entities : List EntityPosition) :
    ChakramState × HitMap :=
  s.foldl (stepChakram dt entities) ([], [])

/-- Run a whole sequence of `update` calls with a fixed entity snapshot,
collecting the per-call hit maps. -/
def runUpdates : ChakramState → List ℚ → List EntityPosition → ChakramState × List HitMap
  | s, [], _ => (s, [])
  | s, dt :: rest, entities =>
    let r1 := update s dt entities
    let r2 := runUpdates r1.1 rest entities
    (r2.1, r1.2 :: r2.2)

/-- Model of `getActiveCount()`. -/
def getActiveCount (s : ChakramState) : Nat :=
  s.length

end ChakramManager

/-! ## Concrete scenario inputs used by the spec's testable properties -/

/-- Placeholder instantiation of the abstract host math library, used only to
form concrete states whose evaluation never reaches a trigonometric branch. -/
def mathStub : MathLib :=
  { cos := fun _ => 1, sin := fun _ => 0, atan2 := fun _ _ => 0, pi := 355 / 113 }

/-- Circle AoE of the spec scenario: origin, radius 5, telegraph 2 seconds. -/
def circleCfg : AoEConfig :=
  { id := "aoe1", shape := "circle", position := ⟨0, 0, 0⟩, radius := some 5,
    telegraphDuration := 2 }

/-- Entities of the circle scenario: one at distance 3 from the origin, one at
distance 10. -/
def circleEntities : List EntityPosition :=
  [⟨"party-1", ⟨3, 0, 0⟩⟩, ⟨"party-2", ⟨10, 0, 0⟩⟩]

/-- Manager state right after spawning the circle AoE. -/
def circleState0 : AoEState :=
  (AoEManager.spawn [] circleCfg).toOption.getD []

/-- Puddle of the spec scenario: center `(10, 0)`, soak radius 3. -/
def puddleCfg : AoEConfig :=
  { id := "pud", shape := "puddle", position := ⟨10, 0, 0⟩, soakRadius := some 3,
    telegraphDuration := 60 }

/-- Manager state right after spawning the puddle. -/
def puddleState0 : AoEState :=
  (AoEManager.spawn [] puddleCfg).toOption.getD []

/-- Manager state after `respawnPuddle("pud", 1, 60)`. -/
def puddleState1 : AoEState :=
  AoEManager.respawnPuddle puddleState0 "pud" 1 60

/-- Chakram of the spec scenario: from `(-20, 0)` to `(20, 0)`, travel time 2
seconds, hit radius 2. -/
def chakramCfg : ChakramConfig :=
  { id := "chak", startPosition := ⟨-20, 0, 0⟩, endPosition := ⟨20, 0, 0⟩,
    travelTime := 2, radius := 1, hitRadius := 2 }

/-- Chakram manager state right after `spawnStationary(chakramCfg)`. -/
def chakramState0 : ChakramState :=
  ChakramManager.spawnStationary [] chakramCfg

/-- Chakram manager state after the subsequent `startMovement("chak")`. -/
def chakramState1 : ChakramState :=
  ChakramManager.startMovement chakramState0 "chak"

/-- Single entity standing at the arena origin. -/
def originEntity : List EntityPosition :=
  [⟨"e1", ⟨0, 0, 0⟩⟩]

/-- A config whose shape tag is outside the six supported ones. -/
def donutCfg : AoEConfig :=
  { id := "bad", shape := "donut", position := ⟨0, 0, 0⟩, telegraphDuration := 1 }

/-- Pairwise-distinct event ids, the uniqueness discipline of the data model
(`TimedEvent.id` is unique within one encounter attempt). -/
def distinctIds (l : List TimelineEvent) : Prop :=
  l.Pairwise (fun a b => a.id ≠ b.id)

/-- A two-event timeline (deliberately added out of time order). -/
def sampleTimeline : Timeline :=
  { events := [⟨2, "b"⟩, ⟨1, "a"⟩], currentTime := 0, isRunning := false,
    executedEvents := [] }

/-- A chakram already released and about to finish its flight. -/
def movingChakram : ActiveChakram :=
  { config := chakramCfg, meshPos := ⟨-20, 1, 0⟩, elapsedTime := 0,
    resolved := false, stationary := false }

/-- Single entity standing at the chakram scenario's end position. -/
def endEntity : List EntityPosition :=
  [⟨"e2", ⟨20, 0, 0⟩⟩]

/-! ## Theorems -/

/-- C2: after spawning a circle AoE at the origin with radius 5 and telegraph
duration 2, a first `update(1.0, entities)` resolves nothing and returns an
empty hit map; a second `update(1.0, entities)` with one entity at distance 3
and another at distance 10 marks the AoE resolved on that tick and returns a
hit map where the first entity's id maps to a list containing this AoE's id
and the second entity's id is absent. -/
theorem circle_aoe_two_tick_scenario (m : MathLib) :
    (AoEManager.update m circleState0 1 circleEntities).2 = [] ∧
    (AoEManager.update m circleState0 1 circleEntities).1.map ActiveAoE.resolved =
      [false] ∧
    (AoEManager.update m (AoEManager.update m circleState0 1 circleEntities).1 1
      circleEntities).1.map ActiveAoE.resolved = [true] ∧
    (AoEManager.update m (AoEManager.update m circleState0 1 circleEntities).1 1
      circleEntities).2 = [("party-1", ["aoe1"])] := by
  refine ⟨?_, ?_, ?_, ?_⟩ <;>
    simp [AoEManager.update, AoEManager.stepAoE, AoEManager.updatePuddle,
      AoEManager.checkCollision, AoEManager.spawn, AoEManager.createMesh,
      AoEManager.hasAoE, circleState0, circleCfg, circleEntities, addHit,
      Except.toOption] <;> norm_num

/-- C3 counterexample: the claim asserts that after `respawnPuddle` shrinks
the puddle to radius 1, `checkPuddleSoak` at `(11, 0)` returns false; the
code returns true, because `(11, 0)` is at distance exactly 1 from the center
`(10, 0)` and containment is boundary-inclusive. -/
theorem puddle_respawn_boundary_counterexample :
    AoEManager.checkPuddleSoak puddleState1 "pud" [⟨11, 0, 0⟩] = true := by
  simp [AoEManager.checkPuddleSoak, AoEManager.getAoE, AoEManager.respawnPuddle,
    AoEManager.remove, AoEManager.spawn, AoEManager.createMesh, AoEManager.hasAoE,
    puddleState1, puddleState0, puddleCfg, Except.toOption]
  norm_num

/-- C3 amended: `respawnPuddle` strictly replaces the puddle at the unchanged
center and containment afterwards is decided by the new radius only, with the
boundary inside: before respawn, `(11, 0)` soaks (radius 3); after respawning
to radius 1 the instance sits at the same center with `currentRadius = 1`;
`(11, 0)`, exactly on the new boundary, still soaks; `(10.5, 0)` soaks; and
`(11.5, 0)`, strictly outside the new radius, does not. -/
theorem puddle_respawn_strictly_replaces :
    AoEManager.checkPuddleSoak puddleState0 "pud" [⟨11, 0, 0⟩] = true ∧
    puddleState1.map (fun a => (a.config.id, a.config.position, a.currentRadius)) =
      [("pud", (⟨10, 0, 0⟩ : Vec3), some 1)] ∧
    AoEManager.checkPuddleSoak puddleState1 "pud" [⟨11, 0, 0⟩] = true ∧
    AoEManager.checkPuddleSoak puddleState1 "pud" [⟨21 / 2, 0, 0⟩] = true ∧
    AoEManager.checkPuddleSoak puddleState1 "pud" [⟨23 / 2, 0, 0⟩] = false := by
  refine ⟨?_, ?_, ?_, ?_, ?_⟩ <;>
    simp [AoEManager.checkPuddleSoak, AoEManager.getAoE, AoEManager.respawnPuddle,
      AoEManager.remove, AoEManager.spawn, AoEManager.createMesh, AoEManager.hasAoE,
      puddleState1, puddleState0, puddleCfg, Except.toOption] <;> norm_num

/-- C4: a chakram created with `spawnStationary` contributes no hits and does
not move for any sequence of update calls with any entity snapshot; after
`startMovement`, a single `update(1.0)` of the `(-20,0) → (20,0)`,
travel-time-2 chakram places it at `x = 0` (progress one half) and the entity
standing at the origin, within the hit radius, appears in the hit map. -/
theorem chakram_stationary_until_released :
    (∀ (dts : List ℚ) (entities : List EntityPosition),
      ChakramManager.runUpdates chakramState0 dts entities =
        (chakramState0, List.replicate dts.length [])) ∧
    ChakramManager.update chakramState1 1 originEntity =
      ([{ config := chakramCfg, meshPos := ⟨0, 1, 0⟩, elapsedTime := 1,
          resolved := false, stationary := false }], [("e1", ["chak"])]) := by
  constructor
  · intro dts entities
    induction dts with
    | nil => rfl
    | cons d rest ih =>
      have h1 : ChakramManager.update chakramState0 d entities = (chakramState0, []) := rfl
      simp [ChakramManager.runUpdates, h1, ih, List.replicate_succ]
  · simp [ChakramManager.update, ChakramManager.stepChakram, ChakramManager.startMovement,
      ChakramManager.spawnStationary, ChakramManager.hasChakram, chakramState1,
      chakramState0, chakramCfg, originEntity, addHit]
    norm_num

/-- C7: a config whose shape tag is outside the six supported ones and whose
id is not live makes `spawn` raise `Unknown AoE shape: ...` at construction
time, before the instance is inserted; an error result leaves the caller
holding the old, unchanged live set. -/
theorem spawn_unknown_shape_errors (s : AoEState) (cfg : AoEConfig)
    (hshape : cfg.shape ∉ (["circle", "line", "cone", "tshape", "puddle", "plus"] :
      List String))
    (hid : AoEManager.hasAoE s cfg.id = false) :
    AoEManager.spawn s cfg = .error ("Unknown AoE shape: " ++ cfg.shape) := by
  have hmesh : AoEManager.createMesh cfg = .error ("Unknown AoE shape: " ++ cfg.shape) := by
    unfold AoEManager.createMesh
    split <;> simp_all
  simp [AoEManager.spawn, hid, hmesh]

/-- Closed witness for the unknown-shape theorem at the concrete config with
shape tag `donut` and an empty manager. -/
theorem spawn_unknown_shape_errors_witness :
    donutCfg.shape ∉ (["circle", "line", "cone", "tshape", "puddle", "plus"] :
      List String) ∧
    AoEManager.hasAoE [] donutCfg.id = false ∧
    AoEManager.spawn [] donutCfg = .error ("Unknown AoE shape: " ++ donutCfg.shape) :=
  ⟨by decide, rfl, spawn_unknown_shape_errors [] donutCfg (by decide) rfl⟩

/-- C8: in both managers a `spawn` whose id is already live is a no-op — it
does not throw and returns the state unchanged (so the existing instance is
neither overwritten nor altered). -/
theorem duplicate_spawn_is_noop (s : AoEState) (cfg : AoEConfig)
    (s2 : ChakramState) (cfg2 : ChakramConfig)
    (h1 : AoEManager.hasAoE s cfg.id = true)
    (h2 : ChakramManager.hasChakram s2 cfg2.id = true) :
    AoEManager.spawn s cfg = .ok s ∧
    ChakramManager.spawn s2 cfg2 = s2 ∧
    ChakramManager.spawnStationary s2 cfg2 = s2 := by
  refine ⟨?_, ?_, ?_⟩ <;>
    simp [AoEManager.spawn, ChakramManager.spawn, ChakramManager.spawnStationary, h1, h2]

/-- Closed witness for the duplicate-spawn theorem: respawning the already
live circle AoE and the already live chakram. -/
theorem duplicate_spawn_is_noop_witness :
    AoEManager.hasAoE circleState0 circleCfg.id = true ∧
    ChakramManager.hasChakram chakramState0 chakramCfg.id = true ∧
    (AoEManager.spawn circleState0 circleCfg = .ok circleState0 ∧
     ChakramManager.spawn chakramState0 chakramCfg = chakramState0 ∧
     ChakramManager.spawnStationary chakramState0 chakramCfg = chakramState0) :=
  ⟨rfl, rfl, duplicate_spawn_is_noop circleState0 circleCfg chakramState0 chakramCfg rfl rfl⟩

/-- C5: `checkPuddleSoak` is embedded as a pure function of the manager state
(the source method performs no writes, so calling it twice with the same
inputs trivially returns the same boolean and mutates nothing); for a live
puddle it returns true iff at least one supplied position lies within the
puddle's current radius. -/
theorem checkPuddleSoak_pure_query (s : AoEState) (id : String)
    (ps : List Vec3) (aoe : ActiveAoE)
    (hget : AoEManager.getAoE s id = some aoe)
    (hshape : aoe.config.shape = "puddle") :
    AoEManager.checkPuddleSoak s id ps = true ↔
      ∃ p ∈ ps,
        (p.x - aoe.config.position.x) * (p.x - aoe.config.position.x) +
        (p.z - aoe.config.position.z) * (p.z - aoe.config.position.z) ≤
        aoe.currentRadius.getD (aoe.config.soakRadius.getD (aoe.config.radius.getD 2)) *
        aoe.currentRadius.getD (aoe.config.soakRadius.getD (aoe.config.radius.getD 2)) := by
  simp only [AoEManager.checkPuddleSoak, hget, hshape]
  simp [List.any_eq_true]

/-- Closed witness for the puddle-soak query theorem: in the freshly spawned
radius-3 puddle state, a position at `(11, 0)` makes the query true. -/
theorem checkPuddleSoak_pure_query_witness :
    (∃ aoe, AoEManager.getAoE puddleState0 "pud" = some aoe ∧
      aoe.config.shape = "puddle" ∧
      (AoEManager.checkPuddleSoak puddleState0 "pud" [⟨11, 0, 0⟩] = true ↔
        ∃ p ∈ ([⟨11, 0, 0⟩] : List Vec3),
          (p.x - aoe.config.position.x) * (p.x - aoe.config.position.x) +
          (p.z - aoe.config.position.z) * (p.z - aoe.config.position.z) ≤
          aoe.currentRadius.getD
            (aoe.config.soakRadius.getD (aoe.config.radius.getD 2)) *
          aoe.currentRadius.getD
            (aoe.config.soakRadius.getD (aoe.config.radius.getD 2)))) :=
  ⟨{ config := puddleCfg, elapsedTime := 0, resolved := false,
     currentSoaks := some 0, currentRadius := some 3, isBeingSoaked := some false },
   rfl, rfl,
   checkPuddleSoak_pure_query puddleState0 "pud" [⟨11, 0, 0⟩] _ rfl rfl⟩

/-- C6: for every circle AoE the containment comparison is boundary-inclusive:
a query point whose squared distance to the center is exactly `radius²` (that
is, a point at distance exactly `radius`) is inside, and one whose squared
distance is `(radius + ε)²` for any `ε > 0` is outside. -/
theorem circle_boundary_inclusive (m : MathLib) (cfg : AoEConfig) (p : Vec3) (r : ℚ)
    (hshape : cfg.shape = "circle") (hrad : cfg.radius = some r) (hr : 0 ≤ r) :
    (((p.x - cfg.position.x) * (p.x - cfg.position.x) +
      (p.z - cfg.position.z) * (p.z - cfg.position.z) = r * r) →
      AoEManager.checkCollision m cfg p = true) ∧
    (∀ ε : ℚ, 0 < ε →
      ((p.x - cfg.position.x) * (p.x - cfg.position.x) +
       (p.z - cfg.position.z) * (p.z - cfg.position.z) = (r + ε) * (r + ε)) →
      AoEManager.checkCollision m cfg p = false) := by
  unfold AoEManager.checkCollision
  rw [hshape, hrad]
  constructor
  · intro h
    simp only [decide_eq_true_eq]
    rw [h]
  · intro ε hε h
    simp only [decide_eq_false_iff_not, not_le]
    rw [h]
    nlinarith

/-- Closed witness for the circle boundary theorem: the radius-5 circle at
the origin contains `(3, 4)` (distance exactly 5) and excludes `(6, 0)`
(distance `5 + 1`). -/
theorem circle_boundary_inclusive_witness :
    circleCfg.shape = "circle" ∧ circleCfg.radius = some 5 ∧ (0 : ℚ) ≤ 5 ∧
    AoEManager.checkCollision mathStub circleCfg ⟨3, 0, 4⟩ = true ∧
    AoEManager.checkCollision mathStub circleCfg ⟨6, 0, 0⟩ = false :=
  ⟨rfl, rfl, by norm_num,
   (circle_boundary_inclusive mathStub circleCfg ⟨3, 0, 4⟩ 5 rfl rfl (by norm_num)).1
     (by simp [circleCfg]; norm_num),
   (circle_boundary_inclusive mathStub circleCfg ⟨6, 0, 0⟩ 5 rfl rfl (by norm_num)).2
     1 (by norm_num) (by simp [circleCfg]; norm_num)⟩

/-- Effect of `addHit` on a later lookup: the target entity's list gains the
AoE id at the end; every other entity's list is untouched. -/
theorem lookupHits_addHit (m : HitMap) (k2 aid k : String) :
    lookupHits (addHit m k2 aid) k =
      if k = k2 then lookupHits m k ++ [aid] else lookupHits m k := by
  unfold addHit lookupHits
  by_cases hany : m.any (fun p => p.1 = k2) = true
  · simp only [hany, if_true]
    rw [List.find?_map]
    have hcomp : ((fun p : String × List String => decide (p.1 = k)) ∘
        (fun p => if p.1 = k2 then (p.1, p.2 ++ [aid]) else p)) =
        (fun p : String × List String => decide (p.1 = k)) := by
      funext p
      by_cases h : p.1 = k2 <;> simp [h]
    rw [hcomp]
    cases hfind : m.find? (fun p => decide (p.1 = k)) with
    | none =>
      have hne : k ≠ k2 := by
        intro rfl2
        rcases List.any_eq_true.mp hany with ⟨p, hp, hpk⟩
        have := List.find?_eq_none.mp hfind p hp
        simp_all
      simp [hfind, hne]
    | some q =>
      have hq : q.1 = k := by
        have := List.find?_some hfind
        simpa using this
      by_cases hk : k = k2
      · subst hk
        simp [hfind, hq]
      · have : ¬ q.1 = k2 := by rw [hq]; exact hk
        simp [hfind, this, hk]
  · rw [Bool.not_eq_true] at hany
    simp only [hany, Bool.false_eq_true, if_false]
    rw [List.find?_append]
    cases hfind : m.find? (fun p => decide (p.1 = k)) with
    | none =>
      by_cases hk : k = k2
      · subst hk
        simp [hfind, Option.or]
      · have : ¬ (k2 = k) := fun h => hk h.symm
        simp [hfind, Option.or, this, hk]
    | some q =>
      have hqmem := List.mem_of_find?_eq_some hfind
      have hq : q.1 = k := by
        have := List.find?_some hfind
        simpa using this
      have hk : k ≠ k2 := by
        intro he
        have hcon : m.any (fun p => p.1 = k2) = true :=
          List.any_eq_true.mpr ⟨q, hqmem, by simp [hq, ← he]⟩
        rw [hcon] at hany
        exact absurd hany (by simp)
      simp [hfind, Option.or, hk]

/-- Membership in a hit list survives any further `addHit`. -/
theorem mem_lookupHits_addHit (m : HitMap) (k2 aid2 k x : String)
    (h : x ∈ lookupHits m k) : x ∈ lookupHits (addHit m k2 aid2) k := by
  rw [lookupHits_addHit]
  split <;> simp [h]

/-- The per-entity collision fold of the chakram update preserves previously
recorded hits and records the chakram id against every entity whose position
passes the squared-distance test. -/
theorem chakramHitFold_mem (cx cz hr : ℚ) (aid : String) :
    ∀ (ents : List EntityPosition) (hm : HitMap),
      (∀ x k, x ∈ lookupHits hm k →
        x ∈ lookupHits (ents.foldl
          (fun acc e =>
            if (e.position.x - cx) * (e.position.x - cx) +
               (e.position.z - cz) * (e.position.z - cz) ≤ hr * hr then
              addHit acc e.id aid
            else acc) hm) k) ∧
      (∀ ent ∈ ents,
        (ent.position.x - cx) * (ent.position.x - cx) +
        (ent.position.z - cz) * (ent.position.z - cz) ≤ hr * hr →
        aid ∈ lookupHits (ents.foldl
          (fun acc e =>
            if (e.position.x - cx) * (e.position.x - cx) +
               (e.position.z - cz) * (e.position.z - cz) ≤ hr * hr then
              addHit acc e.id aid
            else acc) hm) ent.id)
  | [], hm => by simp
  | e :: rest, hm => by
    constructor
    · intro x k hx
      simp only [List.foldl_cons]
      apply (chakramHitFold_mem cx cz hr aid rest _).1
      split
      · exact mem_lookupHits_addHit _ _ _ _ _ hx
      · exact hx
    · intro ent hent hdist
      rcases List.mem_cons.mp hent with he | hrest
      · subst he
        simp only [List.foldl_cons, if_pos hdist]
        apply (chakramHitFold_mem cx cz hr aid rest _).1
        rw [lookupHits_addHit]
        simp
      · simp only [List.foldl_cons]
        exact (chakramHitFold_mem cx cz hr aid rest _).2 ent hrest hdist

/-- C10: on the update call where a moving chakram's progress first reaches 1,
the collision test still runs at the end position before the chakram resolves
and removes itself: every entity within the hit radius of `endPosition` on
that tick is recorded against this chakram in the returned hit map, and the
chakram is gone from the live set afterwards. -/
theorem chakram_final_tick_hits_then_removes (c : ActiveChakram) (dt : ℚ)
    (entities : List EntityPosition)
    (hstat : c.stationary = false) (hres : c.resolved = false)
    (hT : 0 < c.config.travelTime) (hdone : c.config.travelTime ≤ c.elapsedTime + dt) :
    (ChakramManager.update [c] dt entities).1 = [] ∧
    ∀ ent ∈ entities,
      (ent.position.x - c.config.endPosition.x) * (ent.position.x - c.config.endPosition.x) +
      (ent.position.z - c.config.endPosition.z) * (ent.position.z - c.config.endPosition.z) ≤
        c.config.hitRadius * c.config.hitRadius →
      c.config.id ∈ lookupHits (ChakramManager.update [c] dt entities).2 ent.id := by
  have hprog : min ((c.elapsedTime + dt) / c.config.travelTime) 1 = 1 :=
    min_eq_right ((one_le_div hT).mpr hdone)
  have hx : c.config.startPosition.x +
      (c.config.endPosition.x - c.config.startPosition.x) * 1 = c.config.endPosition.x := by
    ring
  have hz : c.config.startPosition.z +
      (c.config.endPosition.z - c.config.startPosition.z) * 1 = c.config.endPosition.z := by
    ring
  have hupd : ChakramManager.update [c] dt entities =
      ([], entities.foldl (fun acc e =>
        if (e.position.x - c.config.endPosition.x) * (e.position.x - c.config.endPosition.x) +
           (e.position.z - c.config.endPosition.z) * (e.position.z - c.config.endPosition.z) ≤
             c.config.hitRadius * c.config.hitRadius then
          addHit acc e.id c.config.id
        else acc) []) := by
    simp only [ChakramManager.update, List.foldl_cons, List.foldl_nil,
      ChakramManager.stepChakram, hstat, hres, hprog, hx, hz]
    simp
  rw [hupd]
  exact ⟨rfl, fun ent hent h => (chakramHitFold_mem _ _ _ _ entities []).2 ent hent h⟩

/-- Closed witness for the final-tick theorem: the scenario chakram released
at elapsed time 0 finishes within a single `dt = 2` tick and hits the entity
standing at its end position `(20, 0)`. -/
theorem chakram_final_tick_hits_then_removes_witness :
    (movingChakram.stationary = false ∧ movingChakram.resolved = false ∧
      (0 : ℚ) < movingChakram.config.travelTime ∧
      movingChakram.config.travelTime ≤ movingChakram.elapsedTime + 2) ∧
    ((ChakramManager.update [movingChakram] 2 endEntity).1 = [] ∧
      ∀ ent ∈ endEntity,
        (ent.position.x - movingChakram.config.endPosition.x) *
          (ent.position.x - movingChakram.config.endPosition.x) +
        (ent.position.z - movingChakram.config.endPosition.z) *
          (ent.position.z - movingChakram.config.endPosition.z) ≤
          movingChakram.config.hitRadius * movingChakram.config.hitRadius →
        movingChakram.config.id ∈
          lookupHits (ChakramManager.update [movingChakram] 2 endEntity).2 ent.id) :=
  ⟨⟨rfl, rfl, by norm_num [movingChakram, chakramCfg],
      by norm_num [movingChakram, chakramCfg]⟩,
   chakram_final_tick_hits_then_removes movingChakram 2 endEntity rfl rfl
     (by norm_num [movingChakram, chakramCfg]) (by norm_num [movingChakram, chakramCfg])⟩

/-- Running a sequence of updates on a running timeline never touches the
event list, keeps it running, and advances the clock by the sum of the
deltas. -/
theorem runUpdates_preserves (dts : List ℚ) :
    ∀ (tl : Timeline), tl.isRunning = true →
      (tl.runUpdates dts).1.events = tl.events ∧
      (tl.runUpdates dts).1.isRunning = true ∧
      (tl.runUpdates dts).1.currentTime = tl.currentTime + dts.sum
  | tl, hrun => by
    induction dts generalizing tl with
    | nil => simp [Timeline.runUpdates, hrun]
    | cons d rest ih =>
      have h1 : (tl.update d).1.events = tl.events ∧ (tl.update d).1.isRunning = true ∧
          (tl.update d).1.currentTime = tl.currentTime + d := by
        simp [Timeline.update, hrun]
      obtain ⟨he, hr, hc⟩ := h1
      obtain ⟨ihe, ihr, ihc⟩ := ih _ hr
      refine ⟨?_, ihr, ?_⟩
      · simp only [Timeline.runUpdates]
        rw [ihe, he]
      · simp only [Timeline.runUpdates]
        rw [ihc, hc, List.sum_cons]
        ring

/-- C9: the timeline exposes an `isComplete` query (modelled from the spec,
see `Timeline.isComplete`), and after `start()` followed by updates whose
deltas sum past the time of every scheduled event — in particular past the
latest one — `isComplete()` returns true. -/
theorem isComplete_after_clock_passes_latest (tl : Timeline) (dts : List ℚ)
    (hdue : ∀ e ∈ tl.events, e.time ≤ dts.sum) :
    ((tl.start).runUpdates dts).1.isComplete = true := by
  obtain ⟨he, _, hc⟩ := runUpdates_preserves dts tl.start rfl
  rw [Timeline.isComplete, List.all_eq_true]
  intro e hemem
  rw [he] at hemem
  have hmem2 : e ∈ tl.events := by
    have hperm := List.perm_insertionSort timeLE tl.events
    exact hperm.mem_iff.mp (by simpa [Timeline.start] using hemem)
  rw [hc]
  have h0 : (tl.start).currentTime = 0 := rfl
  rw [h0, zero_add]
  simpa using hdue e hmem2

/-- Closed witness for the completion theorem: the two-event sample timeline
is complete after one `update(3)`. -/
theorem isComplete_after_clock_passes_latest_witness :
    (∀ e ∈ sampleTimeline.events, e.time ≤ ([3] : List ℚ).sum) ∧
    (((sampleTimeline.start).runUpdates [3]).1.isComplete = true) :=
  ⟨by
    intro e he
    simp only [sampleTimeline, List.mem_cons, List.not_mem_nil, or_false] at he
    rcases he with rfl | rfl <;> norm_num,
   isComplete_after_clock_passes_latest sampleTimeline [3]
     (by
       intro e he
       simp only [sampleTimeline, List.mem_cons, List.not_mem_nil, or_false] at he
       rcases he with rfl | rfl <;> norm_num)⟩

/-- Two events of a pairwise-distinct-id list with the same id are the same
event. -/
theorem distinctIds_inj {l : List TimelineEvent} (h : distinctIds l) {a b : TimelineEvent}
    (ha : a ∈ l) (hb : b ∈ l) (hid : a.id = b.id) : a = b := by
  unfold distinctIds at h
  induction h with
  | nil => cases ha
  | cons hhead _ ih =>
    rcases List.mem_cons.mp ha with rfl | ha2
    · rcases List.mem_cons.mp hb with rfl | hb2
      · rfl
      · exact absurd hid (hhead b hb2)
    · rcases List.mem_cons.mp hb with rfl | hb2
      · exact absurd hid.symm (hhead a ha2)
      · exact ih ha2 hb2

/-- The executed set produced by the event loop is the input set together
with the ids of the events that just fired. -/
theorem tlExecute_executed (t : ℚ) :
    ∀ (l : List TimelineEvent) (ex : List String) (x : String),
      x ∈ (tlExecute t l ex).1 ↔
        x ∈ ex ∨ x ∈ (tlExecute t l ex).2.map TimelineEvent.id
  | [], ex, x => by simp [tlExecute]
  | e :: rest, ex, x => by
    rw [tlExecute]
    split
    · next hcond =>
      simp only [List.map_cons, List.mem_cons]
      rw [tlExecute_executed t rest (e.id :: ex) x]
      simp only [List.mem_cons]
      tauto
    · next hcond =>
      rw [tlExecute_executed t rest ex x]

/-- With pairwise-distinct ids the event loop fires exactly the events that
are due and not yet executed, in list order (the loop behaves as a filter:
an id freshly added to the executed set can never block a later event of the
same pass, because ids do not repeat). -/
theorem tlExecute_fired (t : ℚ) :
    ∀ (l : List TimelineEvent) (ex : List String), distinctIds l →
      (tlExecute t l ex).2 = l.filter (fun e => decide (e.time ≤ t ∧ e.id ∉ ex))
  | [], ex, _ => by simp [tlExecute]
  | e :: rest, ex, h => by
    have hhead : ∀ b ∈ rest, e.id ≠ b.id := (List.pairwise_cons.mp h).1
    have htail : distinctIds rest := (List.pairwise_cons.mp h).2
    rw [tlExecute]
    split
    · next hcond =>
      rw [List.filter_cons_of_pos (by simpa using hcond)]
      simp only [List.cons.injEq, true_and]
      rw [tlExecute_fired t rest (e.id :: ex) htail]
      apply List.filter_congr
      intro b hb
      apply decide_eq_decide.mpr
      have hne : b.id ≠ e.id := fun hbe => hhead b hb hbe.symm
      simp [List.mem_cons, hne]
    · next hcond =>
      rw [List.filter_cons_of_neg (by simpa using hcond)]
      exact tlExecute_fired t rest ex htail

/-- One `update` step on a running timeline whose executed set is exactly the
ids of the events due by the current clock: the clock advances by `dt`, the
executed set becomes the ids due by the new clock, and the fired trace is the
window of events that became due on this step. -/
theorem update_run_step (tl : Timeline) (d : ℚ) (hd : 0 ≤ d) (hrun : tl.isRunning = true)
    (hdist : distinctIds tl.events)
    (hex : ∀ e ∈ tl.events, e.id ∈ tl.executedEvents ↔ e.time ≤ tl.currentTime) :
    (tl.update d).1.events = tl.events ∧
    (tl.update d).1.isRunning = true ∧
    (tl.update d).1.currentTime = tl.currentTime + d ∧
    (∀ e ∈ tl.events,
      (e.id ∈ (tl.update d).1.executedEvents ↔ e.time ≤ tl.currentTime + d)) ∧
    (tl.update d).2 = tl.events.filter
      (fun e => decide (tl.currentTime < e.time ∧ e.time ≤ tl.currentTime + d)) := by
  have hfired : (tlExecute (tl.currentTime + d) tl.events tl.executedEvents).2 =
      tl.events.filter
        (fun e => decide (tl.currentTime < e.time ∧ e.time ≤ tl.currentTime + d)) := by
    rw [tlExecute_fired _ _ _ hdist]
    apply List.filter_congr
    intro b hb
    apply decide_eq_decide.mpr
    simp only [hex b hb, not_le, and_comm]
  have hexec : ∀ e ∈ tl.events,
      (e.id ∈ (tlExecute (tl.currentTime + d) tl.events tl.executedEvents).1 ↔
        e.time ≤ tl.currentTime + d) := by
    intro e he
    rw [tlExecute_executed, hfired]
    constructor
    · rintro (hin | hin)
      · have := (hex e he).mp hin
        linarith
      · rcases List.mem_map.mp hin with ⟨b, hb, hbid⟩
        have hbev : b ∈ tl.events := List.mem_of_mem_filter hb
        have hbe : b = e := distinctIds_inj hdist hbev he hbid
        subst hbe
        have hp := List.of_mem_filter hb
        simp only [decide_eq_true_eq] at hp
        exact hp.2
    · intro hle
      by_cases h0 : e.time ≤ tl.currentTime
      · exact Or.inl ((hex e he).mpr h0)
      · refine Or.inr (List.mem_map.mpr ⟨e, ?_, rfl⟩)
        rw [List.mem_filter]
        exact ⟨he, by simp [not_le.mp h0, hle]⟩
  refine ⟨by simp [Timeline.update, hrun], by simp [Timeline.update, hrun],
    by simp [Timeline.update, hrun], ?_, ?_⟩
  · intro e he
    have h1 : (tl.update d).1.executedEvents =
        (tlExecute (tl.currentTime + d) tl.events tl.executedEvents).1 := by
      simp [Timeline.update, hrun]
    rw [h1]
    exact hexec e he
  · have h2 : (tl.update d).2 =
        (tlExecute (tl.currentTime + d) tl.events tl.executedEvents).2 := by
      simp [Timeline.update, hrun]
    rw [h2, hfired]

/-- On a time-sorted event list a half-open window filter splits at any
intermediate bound. -/
theorem filter_window_split (a b c : ℚ) (hab : a ≤ b) (hbc : b ≤ c) :
    ∀ (l : List TimelineEvent), l.Sorted timeLE →
      l.filter (fun e => decide (a < e.time ∧ e.time ≤ c)) =
      l.filter (fun e => decide (a < e.time ∧ e.time ≤ b)) ++
      l.filter (fun e => decide (b < e.time ∧ e.time ≤ c))
  | [], _ => by simp
  | e :: rest, hsort => by
    have hhead : ∀ x ∈ rest, e.time ≤ x.time := by
      have := (List.sorted_cons.mp hsort).1
      simpa [timeLE] using this
    have htail : rest.Sorted timeLE := (List.sorted_cons.mp hsort).2
    have ih := filter_window_split a b c hab hbc rest htail
    by_cases h1 : e.time ≤ a
    · rw [List.filter_cons_of_neg (by simp only [decide_eq_true_eq]; rintro ⟨u, v⟩; linarith),
        List.filter_cons_of_neg (by simp only [decide_eq_true_eq]; rintro ⟨u, v⟩; linarith),
        List.filter_cons_of_neg (by simp only [decide_eq_true_eq]; rintro ⟨u, v⟩; linarith)]
      exact ih
    · push_neg at h1
      by_cases h2 : e.time ≤ b
      · rw [List.filter_cons_of_pos (by simp only [decide_eq_true_eq]; exact ⟨h1, by linarith⟩),
          List.filter_cons_of_pos (by simp only [decide_eq_true_eq]; exact ⟨h1, h2⟩),
          List.filter_cons_of_neg (by simp only [decide_eq_true_eq]; rintro ⟨u, v⟩; linarith)]
        rw [ih, List.cons_append]
      · push_neg at h2
        by_cases h3 : e.time ≤ c
        · rw [List.filter_cons_of_pos (by simp only [decide_eq_true_eq]; exact ⟨h1, h3⟩),
            List.filter_cons_of_neg (by simp only [decide_eq_true_eq]; rintro ⟨u, v⟩; linarith),
            List.filter_cons_of_pos (by simp only [decide_eq_true_eq]; exact ⟨h2, h3⟩)]
          have hnil : rest.filter (fun x => decide (a < x.time ∧ x.time ≤ b)) = [] := by
            rw [List.filter_eq_nil_iff]
            intro x hx
            simp only [decide_eq_true_eq]
            rintro ⟨u, v⟩
            have := hhead x hx
            linarith
          rw [hnil, List.nil_append]
          congr 1
          apply List.filter_congr
          intro x hx
          apply decide_eq_decide.mpr
          have hex := hhead x hx
          constructor
          · rintro ⟨u, v⟩; exact ⟨by linarith, v⟩
          · rintro ⟨u, v⟩; exact ⟨by linarith, v⟩
        · push_neg at h3
          rw [List.filter_cons_of_neg (by simp only [decide_eq_true_eq]; rintro ⟨u, v⟩; linarith),
            List.filter_cons_of_neg (by simp only [decide_eq_true_eq]; rintro ⟨u, v⟩; linarith),
            List.filter_cons_of_neg (by simp only [decide_eq_true_eq]; rintro ⟨u, v⟩; linarith)]
          exact ih

/-- On a time-sorted event list the prefix filter up to `c` splits into the
prefix up to `b` followed by the `(b, c]` window. -/
theorem filter_upto_split (b c : ℚ) (hbc : b ≤ c) :
    ∀ (l : List TimelineEvent), l.Sorted timeLE →
      l.filter (fun e => decide (e.time ≤ c)) =
      l.filter (fun e => decide (e.time ≤ b)) ++
      l.filter (fun e => decide (b < e.time ∧ e.time ≤ c))
  | [], _ => by simp
  | e :: rest, hsort => by
    have hhead : ∀ x ∈ rest, e.time ≤ x.time := by
      have := (List.sorted_cons.mp hsort).1
      simpa [timeLE] using this
    have htail : rest.Sorted timeLE := (List.sorted_cons.mp hsort).2
    have ih := filter_upto_split b c hbc rest htail
    by_cases h1 : e.time ≤ b
    · rw [List.filter_cons_of_pos (by simp only [decide_eq_true_eq]; linarith),
        List.filter_cons_of_pos (by simp only [decide_eq_true_eq]; exact h1),
        List.filter_cons_of_neg (by simp only [decide_eq_true_eq]; rintro ⟨u, v⟩; linarith)]
      rw [ih, List.cons_append]
    · push_neg at h1
      by_cases h2 : e.time ≤ c
      · rw [List.filter_cons_of_pos (by simp only [decide_eq_true_eq]; exact h2),
          List.filter_cons_of_neg (by simp only [decide_eq_true_eq]; linarith),
          List.filter_cons_of_pos (by simp only [decide_eq_true_eq]; exact ⟨h1, h2⟩)]
        have hnil : rest.filter (fun x => decide (x.time ≤ b)) = [] := by
          rw [List.filter_eq_nil_iff]
          intro x hx
          simp only [decide_eq_true_eq]
          intro v
          have := hhead x hx
          linarith
        rw [hnil, List.nil_append]
        congr 1
        apply List.filter_congr
        intro x hx
        apply decide_eq_decide.mpr
        have hex := hhead x hx
        constructor
        · intro v; exact ⟨by linarith, v⟩
        · rintro ⟨u, v⟩; exact v
      · push_neg at h2
        rw [List.filter_cons_of_neg (by simp only [decide_eq_true_eq]; linarith),
          List.filter_cons_of_neg (by simp only [decide_eq_true_eq]; linarith),
          List.filter_cons_of_neg (by simp only [decide_eq_true_eq]; rintro ⟨u, v⟩; linarith)]
        exact ih

/-- Invariant run lemma: from any running state whose executed set is exactly
the ids due by the current clock and whose events are sorted with distinct
ids, a sequence of non-negative updates advances the clock by the sum of the
deltas and fires exactly the window of events that became due, in order. -/
theorem runUpdates_run :
    ∀ (dts : List ℚ) (tl : Timeline), (∀ x ∈ dts, 0 ≤ x) → tl.isRunning = true →
      distinctIds tl.events →
      (∀ e ∈ tl.events, e.id ∈ tl.executedEvents ↔ e.time ≤ tl.currentTime) →
      tl.events.Sorted timeLE →
      (tl.runUpdates dts).1.events = tl.events ∧
      (tl.runUpdates dts).1.isRunning = true ∧
      (tl.runUpdates dts).1.currentTime = tl.currentTime + dts.sum ∧
      (∀ e ∈ tl.events, (e.id ∈ (tl.runUpdates dts).1.executedEvents ↔
        e.time ≤ tl.currentTime + dts.sum)) ∧
      (tl.runUpdates dts).2 = tl.events.filter
        (fun e => decide (tl.currentTime < e.time ∧ e.time ≤ tl.currentTime + dts.sum))
  | [], tl, _, hrun, hdist, hex, hsort => by
    refine ⟨rfl, hrun, by simp [Timeline.runUpdates], ?_, ?_⟩
    · intro e he
      simpa using hex e he
    · rw [show (Timeline.runUpdates tl []).2 = [] from rfl, eq_comm, List.filter_eq_nil_iff]
      intro x hx
      simp only [decide_eq_true_eq, List.sum_nil, add_zero]
      rintro ⟨u, v⟩
      linarith
  | d :: rest, tl, hdts, hrun, hdist, hex, hsort => by
    have hd : 0 ≤ d := hdts d (by simp)
    have hrest : ∀ x ∈ rest, 0 ≤ x := fun x hx => hdts x (by simp [hx])
    have hsum : (0:ℚ) ≤ rest.sum := List.sum_nonneg hrest
    obtain ⟨he1, hr1, hc1, hexec1, hfired1⟩ := update_run_step tl d hd hrun hdist hex
    have hdist1 : distinctIds (tl.update d).1.events := by rw [he1]; exact hdist
    have hsort1 : (tl.update d).1.events.Sorted timeLE := by rw [he1]; exact hsort
    have hex1 : ∀ e ∈ (tl.update d).1.events,
        e.id ∈ (tl.update d).1.executedEvents ↔ e.time ≤ (tl.update d).1.currentTime := by
      intro e he
      rw [he1] at he
      rw [hc1]
      exact hexec1 e he
    obtain ⟨ihe, ihr, ihc, ihexec, ihfired⟩ :=
      runUpdates_run rest (tl.update d).1 hrest hr1 hdist1 hex1 hsort1
    have hsumEq : tl.currentTime + (d :: rest).sum = tl.currentTime + d + rest.sum := by
      rw [List.sum_cons]
      ring
    refine ⟨?_, ?_, ?_, ?_, ?_⟩
    · show ((tl.update d).1.runUpdates rest).1.events = tl.events
      rw [ihe, he1]
    · show ((tl.update d).1.runUpdates rest).1.isRunning = true
      exact ihr
    · show ((tl.update d).1.runUpdates rest).1.currentTime = tl.currentTime + (d :: rest).sum
      rw [ihc, hc1, hsumEq]
    · intro e he
      show e.id ∈ ((tl.update d).1.runUpdates rest).1.executedEvents ↔
        e.time ≤ tl.currentTime + (d :: rest).sum
      rw [hsumEq, ← hc1]
      exact ihexec e (by rw [he1]; exact he)
    · show (tl.update d).2 ++ ((tl.update d).1.runUpdates rest).2 =
        tl.events.filter
          (fun e => decide (tl.currentTime < e.time ∧ e.time ≤ tl.currentTime + (d :: rest).sum))
      rw [ihfired, hfired1, he1, hc1, hsumEq]
      exact (filter_window_split tl.currentTime (tl.currentTime + d)
        (tl.currentTime + d + rest.sum) (by linarith) (by linarith) tl.events hsort).symm

/-- The first tick after `start()`: the executed set starts empty, so the
fired trace is exactly the sorted prefix of events due by `dt` — including
any event scheduled at or before time zero. -/
theorem update_from_start (tl : Timeline) (d : ℚ) (hdist : distinctIds tl.events) :
    ((tl.start).update d).1.events = List.insertionSort timeLE tl.events ∧
    ((tl.start).update d).1.isRunning = true ∧
    ((tl.start).update d).1.currentTime = 0 + d ∧
    (∀ e ∈ List.insertionSort timeLE tl.events,
      (e.id ∈ ((tl.start).update d).1.executedEvents ↔ e.time ≤ 0 + d)) ∧
    ((tl.start).update d).2 =
      (List.insertionSort timeLE tl.events).filter (fun e => decide (e.time ≤ 0 + d)) := by
  have hdistl : distinctIds (List.insertionSort timeLE tl.events) :=
    ((List.perm_insertionSort timeLE tl.events).pairwise_iff
      (fun h12 h21 => h12 h21.symm)).mpr hdist
  have hfired : ((tl.start).update d).2 =
      (List.insertionSort timeLE tl.events).filter (fun e => decide (e.time ≤ 0 + d)) := by
    have h2 : ((tl.start).update d).2 =
        (tlExecute (0 + d) (List.insertionSort timeLE tl.events) []).2 := by
      simp [Timeline.update, Timeline.start]
    rw [h2, tlExecute_fired _ _ _ hdistl]
    apply List.filter_congr
    intro b _
    apply decide_eq_decide.mpr
    simp
  refine ⟨rfl, rfl, by simp [Timeline.update, Timeline.start], ?_, hfired⟩
  intro e he
  have h1 : ((tl.start).update d).1.executedEvents =
      (tlExecute (0 + d) (List.insertionSort timeLE tl.events) []).1 := by
    simp [Timeline.update, Timeline.start]
  rw [h1, tlExecute_executed]
  have h2 : (tlExecute (0 + d) (List.insertionSort timeLE tl.events) []).2 =
      (List.insertionSort timeLE tl.events).filter (fun e => decide (e.time ≤ 0 + d)) := by
    have h3 : (tlExecute (0 + d) (List.insertionSort timeLE tl.events) []).2 =
        ((tl.start).update d).2 := by
      simp [Timeline.update, Timeline.start]
    rw [h3, hfired]
  rw [h2]
  constructor
  · rintro (hin | hin)
    · simp at hin
    · rcases List.mem_map.mp hin with ⟨b, hb, hbid⟩
      have hbev : b ∈ List.insertionSort timeLE tl.events := List.mem_of_mem_filter hb
      have hbe : b = e := distinctIds_inj hdistl hbev he hbid
      subst hbe
      have hp := List.of_mem_filter hb
      simpa using hp
  · intro hle
    refine Or.inr (List.mem_map.mpr ⟨e, ?_, rfl⟩)
    rw [List.mem_filter]
    exact ⟨he, by simpa using hle⟩

/-- A full `start()` cycle: for a non-empty sequence of non-negative deltas
the trace of fired events is exactly the time-sorted events filter of those
due by the accumulated clock, and the event list ends as the sorted
permutation of the original. -/
theorem start_run_trace (tl : Timeline) (hdist : distinctIds tl.events)
    (dts : List ℚ) (hdts : ∀ x ∈ dts, 0 ≤ x) (hne : dts ≠ []) :
    ((tl.start).runUpdates dts).1.events = List.insertionSort timeLE tl.events ∧
    ((tl.start).runUpdates dts).2 =
      (List.insertionSort timeLE tl.events).filter
        (fun e => decide (e.time ≤ dts.sum)) := by
  obtain ⟨d, rest, rfl⟩ := List.exists_cons_of_ne_nil hne
  have hd : 0 ≤ d := hdts d (by simp)
  have hrest : ∀ x ∈ rest, 0 ≤ x := fun x hx => hdts x (by simp [hx])
  have hsum : (0:ℚ) ≤ rest.sum := List.sum_nonneg hrest
  obtain ⟨he1, hr1, hc1, hexec1, hfired1⟩ := update_from_start tl d hdist
  have hdist1 : distinctIds ((tl.start).update d).1.events := by
    rw [he1]
    exact ((List.perm_insertionSort timeLE tl.events).pairwise_iff
      (fun h12 h21 => h12 h21.symm)).mpr hdist
  have hsort1 : ((tl.start).update d).1.events.Sorted timeLE := by
    rw [he1]
    exact List.sorted_insertionSort timeLE tl.events
  have hex1 : ∀ e ∈ ((tl.start).update d).1.events,
      e.id ∈ ((tl.start).update d).1.executedEvents ↔
        e.time ≤ ((tl.start).update d).1.currentTime := by
    intro e he
    rw [he1] at he
    rw [hc1]
    exact hexec1 e he
  obtain ⟨ihe, _, _, _, ihfired⟩ :=
    runUpdates_run rest ((tl.start).update d).1 hrest hr1 hdist1 hex1 hsort1
  constructor
  · show (((tl.start).update d).1.runUpdates rest).1.events = _
    rw [ihe, he1]
  · show ((tl.start).update d).2 ++ (((tl.start).update d).1.runUpdates rest).2 = _
    rw [ihfired, hfired1, he1, hc1]
    have hsumEq : (d :: rest).sum = 0 + d + rest.sum := by
      rw [List.sum_cons]
      ring
    rw [hsumEq]
    exact (filter_upto_split (0 + d) (0 + d + rest.sum) (by linarith) _
      (List.sorted_insertionSort timeLE tl.events)).symm

/-- C1: for events with unique ids added before `start()` and any non-empty
sequence of non-negative deltas, every event whose time is at most the
accumulated clock fires exactly once during this cycle, no event past the
clock fires, the fired trace is in ascending time order, and restarting
(`reset()` then `start()`) produces the same exactly-once behaviour over the
next cycle. -/
theorem timeline_fires_due_events_once_in_order (tl : Timeline) (dts dts2 : List ℚ)
    (hdist : distinctIds tl.events)
    (hdts : ∀ x ∈ dts, 0 ≤ x) (hne : dts ≠ [])
    (hdts2 : ∀ x ∈ dts2, 0 ≤ x) (hne2 : dts2 ≠ []) :
    (∀ e ∈ tl.events, e.time ≤ dts.sum →
      ((tl.start).runUpdates dts).2.count e = 1) ∧
    (∀ e ∈ tl.events, dts.sum < e.time → e ∉ ((tl.start).runUpdates dts).2) ∧
    ((tl.start).runUpdates dts).2.Sorted timeLE ∧
    (∀ e ∈ tl.events, e.time ≤ dts2.sum →
      (((((tl.start).runUpdates dts).1.reset).start).runUpdates dts2).2.count e = 1) := by
  have hnodup : tl.events.Nodup :=
    hdist.imp (fun hid heq => hid (by rw [heq]))
  have hperm := List.perm_insertionSort timeLE tl.events
  obtain ⟨hev1, htr1⟩ := start_run_trace tl hdist dts hdts hne
  refine ⟨?_, ?_, ?_, ?_⟩
  · intro e he hdue
    rw [htr1, List.count_filter (by simpa using hdue), hperm.count_eq]
    exact List.count_eq_one_of_mem hnodup he
  · intro e he hlate
    rw [htr1]
    intro hmem
    have := List.of_mem_filter hmem
    simp only [decide_eq_true_eq] at this
    linarith
  · rw [htr1]
    exact List.Pairwise.sublist (List.filter_sublist _)
      (List.sorted_insertionSort timeLE tl.events)
  · intro e he hdue2
    have hresetEv : ((((tl.start).runUpdates dts).1.reset)).events =
        List.insertionSort timeLE tl.events := by
      rw [Timeline.reset]
      exact hev1
    have hdist2 : distinctIds ((((tl.start).runUpdates dts).1.reset)).events := by
      rw [hresetEv]
      exact (hperm.pairwise_iff (fun h12 h21 => h12 h21.symm)).mpr hdist
    obtain ⟨_, htr2⟩ :=
      start_run_trace (((tl.start).runUpdates dts).1.reset) hdist2 dts2 hdts2 hne2
    rw [htr2, List.count_filter (by simpa using hdue2)]
    have hperm2 := List.perm_insertionSort timeLE
      ((((tl.start).runUpdates dts).1.reset)).events
    rw [hperm2.count_eq, hresetEv, hperm.count_eq]
    exact List.count_eq_one_of_mem hnodup he

/-- Closed witness for the exactly-once theorem: the two-event sample
timeline run with a single `dt = 3` crossing both event times, then restarted
and run with `dt = 1` twice. -/
theorem timeline_fires_due_events_once_in_order_witness :
    distinctIds sampleTimeline.events ∧
    (∀ x ∈ ([3] : List ℚ), 0 ≤ x) ∧ (([3] : List ℚ) ≠ []) ∧
    (∀ x ∈ ([1, 1] : List ℚ), 0 ≤ x) ∧ (([1, 1] : List ℚ) ≠ []) ∧
    ((∀ e ∈ sampleTimeline.events, e.time ≤ ([3] : List ℚ).sum →
        ((sampleTimeline.start).runUpdates [3]).2.count e = 1) ∧
      (∀ e ∈ sampleTimeline.events, ([3] : List ℚ).sum < e.time →
        e ∉ ((sampleTimeline.start).runUpdates [3]).2) ∧
      ((sampleTimeline.start).runUpdates [3]).2.Sorted timeLE ∧
      (∀ e ∈ sampleTimeline.events, e.time ≤ ([1, 1] : List ℚ).sum →
        (((((sampleTimeline.start).runUpdates [3]).1.reset).start).runUpdates
          [1, 1]).2.count e = 1)) :=
  ⟨by simp [distinctIds, sampleTimeline],
   by intro x hx; rcases List.mem_singleton.mp hx with rfl; norm_num,
   by simp,
   by
     intro x hx
     rcases List.mem_cons.mp hx with rfl | hx2
     · norm_num
     · rcases List.mem_singleton.mp hx2 with rfl; norm_num,
   by simp,
   timeline_fires_due_events_once_in_order sampleTimeline [3] [1, 1]
     (by simp [distinctIds, sampleTimeline])
     (by intro x hx; rcases List.mem_singleton.mp hx with rfl; norm_num)
     (by simp)
     (by
       intro x hx
       rcases List.mem_cons.mp hx with rfl | hx2
       · norm_num
       · rcases List.mem_singleton.mp hx2 with rfl; norm_num)
     (by simp)⟩
